import Mathlib

set_option maxRecDepth 8000

deriving instance DecidableEq for Except

/-! Shallow embedding of the fight-orchestration core of `llm-fight-club`:
`src/llm_fight_club/core/judging.py`, `core/fight.py`, `core/models.py`, and
the winner/decision logic of `api/main.py`.

External effects are modelled as explicit inputs: the outcome of each judge
network call attempt is an `AttemptOutcome` value, the outcome of each
library parse (`json.loads`, `ast.literal_eval`, the `re` searches) is
carried in a `Content` record, and every `random.choice`/`random.shuffle`
draw is a parameter ranging over every value the library could return.
Python strings are Lean `String`s; the `str` methods the source uses are
re-implemented below over the character list so that everything evaluates
inside the kernel. -/

/-- Python whitespace test used by `str.strip`. -/
def pyIsSpace (c : Char) : Bool := c = ' ' || c = '\n' || c = '\t' || c = '\r'

/-- Python `str.strip()`. -/
def pyStrip (s : String) : String :=
  ⟨((s.toList.dropWhile pyIsSpace).reverse.dropWhile pyIsSpace).reverse⟩

/-- Python `s.strip().startswith("\x7b")` as used on stringified reasons. -/
def pyStartsWithBrace (s : String) : Bool := (pyStrip s).toList.head? = some '\x7b'

/-- Python `str.lower()` on one character. -/
def pyLowerChar (c : Char) : Char :=
  if 'A' ≤ c && c ≤ 'Z' then Char.ofNat (c.toNat + 32) else c

/-- Python `str.lower()`. -/
def pyLower (s : String) : String := ⟨s.toList.map pyLowerChar⟩

/-- Decimal digits to a natural number. -/
def digitsToNat (ds : List Char) : Nat :=
  ds.foldl (fun acc c => acc * 10 + (c.toNat - 48)) 0

/-- Python `int(s)` on a string: strips whitespace, allows one sign, then
requires a nonempty run of digits; `None` models the `ValueError`. -/
def pyStrToInt (s : String) : Option Int :=
  match (pyStrip s).toList with
  | '-' :: ds =>
    if !ds.isEmpty && ds.all Char.isDigit then some (-(digitsToNat ds : Int)) else none
  | '+' :: ds =>
    if !ds.isEmpty && ds.all Char.isDigit then some (digitsToNat ds : Int) else none
  | ds =>
    if !ds.isEmpty && ds.all Char.isDigit then some (digitsToNat ds : Int) else none

/-- Occurrence of a character sequence inside another (Python `sub in s`). -/
def subOccurs (sub : List Char) : List Char → Bool
  | [] => sub.isEmpty
  | c :: cs => sub.isPrefixOf (c :: cs) || subOccurs sub cs

/-- Python `sub in s` on strings. -/
def pyInStr (sub s : String) : Bool := subOccurs sub.toList s.toList

/-- Python `sep.join(parts)`. -/
def joinSep (sep : String) : List String → String
  | [] => ""
  | [s] => s
  | s :: rest => s ++ sep ++ joinSep sep rest

/-- Decoded JSON / Python literal values, as produced by `json.loads` or
`ast.literal_eval` (floats do not occur in the judged fields we model). -/
inductive JsonVal where
  | null
  | bool (b : Bool)
  | int (n : Int)
  | str (s : String)
  | arr (xs : List JsonVal)
  | obj (fields : List (String × JsonVal))

mutual

/-- Python `str(v)` on a decoded value (container rendering simplified; the
source only ever joins the rendered strings into a reason text). -/
def pyStr : JsonVal → String
  | .null => "None"
  | .bool b => if b then "True" else "False"
  | .int n => toString n
  | .str s => s
  | .arr xs => "[" ++ pyStrList xs ++ "]"
  | .obj fs => "\x7b" ++ pyStrFields fs ++ "\x7d"

/-- Renders the elements of a list value. -/
def pyStrList : List JsonVal → String
  | [] => ""
  | [x] => pyStr x
  | x :: xs => pyStr x ++ ", " ++ pyStrList xs

/-- Renders the fields of an object value. -/
def pyStrFields : List (String × JsonVal) → String
  | [] => ""
  | [kv] => kv.1 ++ ": " ++ pyStr kv.2
  | kv :: fs => kv.1 ++ ": " ++ pyStr kv.2 ++ ", " ++ pyStrFields fs

end

/-- Python `data.get(key, dflt)` on a decoded object's field list. -/
def jsonGet (fields : List (String × JsonVal)) (key : String) (dflt : JsonVal) : JsonVal :=
  match fields.lookup key with
  | some v => v
  | none => dflt

/-- Python `int(x)` on a decoded value: ints pass through, bools coerce,
digit strings parse; everything else raises (`none` models the
`TypeError`/`ValueError`). -/
def pyInt : JsonVal → Option Int
  | .int n => some n
  | .bool b => some (if b then 1 else 0)
  | .str s => pyStrToInt s
  | _ => none

/-- A judge verdict record, `\x7b"judge", "score_a", "score_b", "reason"\x7d`
as built by `get_single_judge_verdict`. -/
structure Verdict where
  judge : String
  score_a : Int
  score_b : Int
  reason : String
  deriving DecidableEq

/-- The parse-relevant content of one successful judge response, carrying
the outcome of each library call the fallback chain makes on the raw text:
`json.loads` (`json`), `ast.literal_eval` of a `\x7b`-prefixed reason string
(`reasonAst`), `ast.literal_eval` of the greedy `\x7b...\x7d` regex block
(`astBlock`), and the three regex extractions of fallback 2. `none` models
the corresponding exception or failed match. -/
structure Content where
  json : Option JsonVal
  reasonAst : Option JsonVal
  astBlock : Option JsonVal
  reA : Option Nat
  reB : Option Nat
  reReason : Option String
  raw : String

/-- Outcome of one `acompletion` attempt inside `get_single_judge_verdict`:
either the call raised (`fail` carries `str(e)`), or a response arrived
(`success` carries its parse content and the boolean drawn by the
tie-break `random.choice([True, False])`, should one be needed). -/
inductive AttemptOutcome where
  | fail (err : String)
  | success (c : Content) (coin : Bool)

/-- Tie-break bump shared by all three parse paths: on equal scores one
side is incremented by 1 according to the random draw. -/
def tieBreak (coin : Bool) (sa sb : Int) : Int × Int :=
  if sa = sb then (if coin then (sa + 1, sb) else (sa, sb + 1)) else (sa, sb)

/-- Fallback 2 of the parse chain (`judging.py` lines 149-168): regex
extraction of the two scores (default 5), tie-break, and a reason taken
from the regex capture or the first 150 characters of the raw text. -/
def fallback2 (judge_model : String) (c : Content) (coin : Bool) : Except String Verdict :=
  let val_a : Int := match c.reA with | some n => (n : Int) | none => 5
  let val_b : Int := match c.reB with | some n => (n : Int) | none => 5
  let sc := tieBreak coin val_a val_b
  let reason := match c.reReason with
    | some r => pyStrip r
    | none => ⟨(c.raw.take 150).toList.map (fun ch => if ch = '\n' then ' ' else ch)⟩
  .ok ⟨judge_model, sc.1, sc.2, reason⟩

/-- Fallback 1 of the parse chain (`judging.py` lines 125-147): the largest
`\x7b...\x7d` block through `ast.literal_eval`; any failure inside this
block falls through to fallback 2 (the Python `except` there is bare). -/
def fallback1 (judge_model : String) (c : Content) (coin : Bool) : Except String Verdict :=
  match c.astBlock with
  | some (.obj fields) =>
    match pyInt (jsonGet fields "score_a" (.int 5)), pyInt (jsonGet fields "score_b" (.int 5)) with
    | some sa, some sb =>
      let reason := match jsonGet fields "reason" (.str "No reason.") with
        | .obj fs => joinSep " " (fs.map (fun kv => pyStr kv.2))
        | v => pyStr v
      let sc := tieBreak coin sa sb
      .ok ⟨judge_model, sc.1, sc.2, reason⟩
    | _, _ => fallback2 judge_model c coin
  | _ => fallback2 judge_model c coin

/-- Reason extraction of the strict-JSON path (`judging.py` lines 94-111):
dict reasons are flattened, `\x7b`-prefixed string reasons are re-parsed
through `ast.literal_eval` and flattened when that yields a dict. -/
def strictReason (c : Content) (fields : List (String × JsonVal)) : String :=
  match jsonGet fields "reason" (.str "No reason.") with
  | .obj fs => joinSep " " (fs.map (fun kv => pyStr kv.2))
  | .str s =>
    if pyStartsWithBrace s then
      match c.reasonAst with
      | some (.obj fs) => joinSep " " (fs.map (fun kv => pyStr kv.2))
      | _ => s
    else s
  | v => pyStr v

/-- One full pass of the parse chain over a received response
(`judging.py` lines 89-168). The strict path runs when `json.loads`
succeeds on a dict; a non-dict decode raises `AttributeError` at
`data.get`, which the inner `except` does not catch (`.error`), while
`ValueError`/`TypeError` from `int(...)` fall into the fallback chain. -/
def parseVerdict (judge_model : String) (c : Content) (coin : Bool) : Except String Verdict :=
  match c.json with
  | some (.obj fields) =>
    match pyInt (jsonGet fields "score_a" (.int 5)), pyInt (jsonGet fields "score_b" (.int 5)) with
    | some sa, some sb =>
      let reason := strictReason c fields
      let sc := tieBreak coin sa sb
      .ok ⟨judge_model, sc.1, sc.2, reason⟩
    | _, _ => fallback1 judge_model c coin
  | some _ => .error "AttributeError"
  | none => fallback1 judge_model c coin

/-- The neutral verdict returned when the final attempt raised
(`judging.py` line 171). -/
def errVerdict (judge_model err : String) : Verdict :=
  ⟨judge_model, 5, 5, "Error: " ++ err.take 50⟩

/-- The retry loop of `get_single_judge_verdict` (`judging.py` lines
84-174) over the list of its `retries + 1` attempt outcomes (default 3):
a raised attempt before the last one sleeps and retries, a raised last
attempt returns the neutral error verdict, a received response always
produces a verdict through the parse chain (an uncaught parse error is
absorbed by the outer `except Exception`). The `[]` case is the
unreachable fall-through return after the loop. -/
def getSingleJudgeVerdict (judge_model : String) : List AttemptOutcome → Verdict
  | [] => ⟨judge_model, 5, 5, "Timeout/Error"⟩
  | [a] =>
    match a with
    | .fail e => errVerdict judge_model e
    | .success c coin =>
      match parseVerdict judge_model c coin with
      | .ok v => v
      | .error e => errVerdict judge_model e
  | a :: b :: rest =>
    match a with
    | .fail _ => getSingleJudgeVerdict judge_model (b :: rest)
    | .success c coin =>
      match parseVerdict judge_model c coin with
      | .ok v => v
      | .error _ => getSingleJudgeVerdict judge_model (b :: rest)

/-- One recorded round of the fight log (`fight.py` lines 148-153). -/
structure RoundRec where
  round : Nat
  red_text : String
  blue_text : String
  verdicts : List Verdict
  deriving DecidableEq

/-- The mutable fight state owned by `FightManager` (`fight.py` lines
14-39): the persisted `fight_data` fields that the scoring logic touches
together with the running totals and per-judge round-win tallies
(`fight_id`/`timestamp` bookkeeping and event emission are I/O and carry
no scoring state). -/
structure FightState where
  topic : String
  red_model : String
  blue_model : String
  judges : List String
  rounds : List RoundRec
  total_red : Int
  total_blue : Int
  judge_round_wins : List (String × Nat × Nat)
  aggregate_red : Int
  aggregate_blue : Int
  deriving DecidableEq

/-- The state built by `FightManager.__init__`. -/
def initState (fighter_a fighter_b : String) (judges : List String) (topic : String) :
    FightState :=
  { topic := topic
    red_model := fighter_a
    blue_model := fighter_b
    judges := judges
    rounds := []
    total_red := 0
    total_blue := 0
    judge_round_wins := judges.map (fun j => (j, 0, 0))
    aggregate_red := 0
    aggregate_blue := 0 }

/-- Update of the `judge_round_wins` dict entry for one judge
(`fight.py` lines 124-125). -/
def bumpWin (l : List (String × Nat × Nat)) (j : String) (isRed : Bool) :
    List (String × Nat × Nat) :=
  l.map (fun e =>
    if e.1 = j then (if isRed then (e.1, e.2.1 + 1, e.2.2) else (e.1, e.2.1, e.2.2 + 1)) else e)

/-- The verdict-gathering comprehension of `score_round` (`fight.py` lines
108-109): one `get_single_judge_verdict` task per judge, `asyncio.gather`
keeping the results in judge order; `oracle i` is the attempt-outcome
sequence of the call issued for the judge at position `i`. -/
def gatherVerdicts (judges : List String) (oracle : Nat → List AttemptOutcome) : List Verdict :=
  match judges with
  | [] => []
  | j :: js => getSingleJudgeVerdict j (oracle 0) :: gatherVerdicts js (fun i => oracle (i + 1))

/-- The tally loop of `score_round` (`fight.py` lines 115-135), walking the
gathered verdicts in lockstep with the judge list: accumulates the running
aggregate totals and the per-judge round-win tallies. -/
def scoreLoop : List String → List Verdict → FightState → FightState
  | _, [], st => st
  | js, v :: vs, st =>
    let j_name := js.headD ""
    let st1 : FightState :=
      { st with
        total_red := st.total_red + v.score_a
        total_blue := st.total_blue + v.score_b
        judge_round_wins :=
          if v.score_a > v.score_b then bumpWin st.judge_round_wins j_name true
          else if v.score_b > v.score_a then bumpWin st.judge_round_wins j_name false
          else st.judge_round_wins }
    scoreLoop js.tail vs st1

/-- `FightManager.score_round` (`fight.py` lines 104-153): gather one
verdict per judge, tally them, then append the round record with the
verdicts positionally aligned to the judges. -/
def scoreRound (st : FightState) (round_num : Nat) (t_a t_b : String)
    (oracle : Nat → List AttemptOutcome) : FightState :=
  let verdicts := gatherVerdicts st.judges oracle
  let st1 := scoreLoop st.judges verdicts st
  { st1 with rounds := st1.rounds ++ [⟨round_num, t_a, t_b, verdicts⟩] }

/-- Inputs of one call to `score_round`: round number, the two fighter
texts, and the judge-call outcomes. -/
structure RoundInput where
  num : Nat
  t_a : String
  t_b : String
  oracle : Nat → List AttemptOutcome

/-- A sequence of `score_round` calls applied to a fight state. -/
def applyRounds (st : FightState) : List RoundInput → FightState
  | [] => st
  | r :: rest => applyRounds (scoreRound st r.num r.t_a r.t_b r.oracle) rest

/-- Placeholder verdict for an out-of-range `verdicts[idx]` access (the
Python code would raise `IndexError`; every reachable state keeps the
verdict list exactly as long as the judge list, so the placeholder is
never read there). -/
def noVerdict : Verdict := ⟨"", 0, 0, ""⟩

/-- The per-judge overall pick of `resolve_winner` (`fight.py` lines
196-201): the judge's own `score_a` and `score_b` are summed across all
recorded rounds at the judge's position `judges.index(j)`. -/
def judgePick (judges : List String) (rounds : List RoundRec) (j : String) : String :=
  let idx := judges.indexOf j
  let r_sum : Int := (rounds.map (fun r => (r.verdicts.getD idx noVerdict).score_a)).sum
  let b_sum : Int := (rounds.map (fun r => (r.verdicts.getD idx noVerdict).score_b)).sum
  if r_sum > b_sum then "red" else if b_sum > r_sum then "blue" else "draw"

/-- `FightManager.resolve_winner` (`fight.py` lines 193-204): copies the
running totals into `aggregate_scores`, computes every judge's pick, and
returns the red/blue pick counts. -/
def resolveWinner (st : FightState) : FightState × Nat × Nat :=
  let st1 : FightState :=
    { st with aggregate_red := st.total_red, aggregate_blue := st.total_blue }
  let judge_winners := st.judges.map (judgePick st.judges st.rounds)
  (st1, judge_winners.count "red", judge_winners.count "blue")

/-- The winner string computed by the websocket endpoint
(`api/main.py` line 88). -/
def winnerKey (red_wins blue_wins : Nat) : String :=
  if red_wins > blue_wins then "red" else "blue"

/-- The decision classification of the websocket endpoint
(`api/main.py` lines 90-94). -/
def decisionType (red_wins blue_wins : Nat) : String :=
  if red_wins = blue_wins then "Sudden Death"
  else if red_wins = 3 ∨ blue_wins = 3 then "Unanimous"
  else "Split"

/-- The per-verdict step of the sudden-death tally (`fight.py` lines
173-180): returns the possibly red-bumped verdict and whether the vote
went to red. -/
def sdStep (v : Verdict) : Verdict × Bool :=
  if v.score_a ≥ v.score_b then
    (if v.score_a = v.score_b then { v with score_a := v.score_a + 1 } else v, true)
  else (v, false)

/-- The sudden-death red/blue vote counts over the gathered verdicts. -/
def sdVotes (judges : List String) (oracle : Nat → List AttemptOutcome) : Nat × Nat :=
  let tally := (gatherVerdicts judges oracle).map sdStep
  (tally.countP (fun t => t.2), tally.countP (fun t => !t.2))

/-- `FightManager.run_sudden_death` (`fight.py` lines 155-191), reduced to
its value: one verdict per judge is gathered, tallied through `sdStep`,
and the side with more votes is returned (the fighter prompts and event
emissions are I/O). -/
def runSuddenDeath (judges : List String) (oracle : Nat → List AttemptOutcome) : String :=
  let votes := sdVotes judges oracle
  if votes.1 > votes.2 then "red" else "blue"

/-- Provider prefix of a model identifier, Python `m.split('/')[0]`
(`judging.py` line 24). -/
def providerOf (m : String) : String := ⟨m.toList.takeWhile (fun c => !(c = '/'))⟩

/-- The diversity pass of `JudgeRotation.get_judges` (`judging.py` lines
21-38): the pool is grouped by provider, the provider order is shuffled
(`provOrder` ranges over the orders `random.shuffle` can produce), and one
random eligible candidate per provider is appended until 3 judges are
found; `picks` supplies each `random.choice` as an index. -/
def diversityPass (pool fighters : List String) :
    List String → List Nat → List String → List String
  | [], _, judges => judges
  | p :: ps, picks, judges =>
    if judges.length ≥ 3 then judges
    else
      let candidates := (pool.filter (fun m => providerOf m = p)).filter
        (fun m => !(fighters.contains m) && !(judges.contains m))
      if candidates.isEmpty then diversityPass pool fighters ps picks.tail judges
      else
        diversityPass pool fighters ps picks.tail
          (judges ++ [candidates.getD (picks.headD 0 % candidates.length) ""])

/-- The rotation fill pass of `get_judges` (`judging.py` lines 40-47):
walk the pool from the rotation index, appending eligible candidates,
for at most `2 * pool.length` attempts; returns the judges and the
advanced rotation index. -/
def fillPass (pool fighters : List String) :
    List String → Nat → Nat → List String × Nat
  | judges, rotIdx, 0 => (judges, rotIdx)
  | judges, rotIdx, fuel + 1 =>
    if judges.length < 3 then
      let judge := pool.getD (rotIdx % pool.length) ""
      let judges1 :=
        if !(fighters.contains judge) && !(judges.contains judge) then judges ++ [judge]
        else judges
      fillPass pool fighters judges1 (rotIdx + 1) fuel
    else (judges, rotIdx)

/-- `JudgeRotation.get_judges` (`judging.py` lines 17-49) for a session
whose deduplicated shuffled pool is `pool` and whose rotation index is
`rotIdx`: diversity pass, then rotation fill bounded by `2 * pool.length`
attempts. -/
def getJudges (pool fighters : List String) (provOrder : List String) (picks : List Nat)
    (rotIdx : Nat) : List String × Nat :=
  let judges := diversityPass pool fighters provOrder picks []
  fillPass pool fighters judges rotIdx (2 * pool.length)

/-- The model-family whitelist of `load_models` (`models.py` line 30). -/
def modelKeywords : List String :=
  ["kimi", "qwen", "glm", "minimax", "llama", "gemma", "mistral"]

/-- `load_models` (`models.py` lines 7-48) on a decoded pool file (provider
name to model identifiers): keep only the two trusted providers, dedup
(`list(set(...))` modelled as `dedup`), filter by the keyword whitelist,
and fall back to the unfiltered list when the keyword filter is empty. -/
def load_models (pool : List (String × List String)) : List String :=
  let all_models :=
    (pool.filter (fun e => e.1 = "groq" || e.1 = "mistral")).flatMap (fun e => e.2)
  let all_models := all_models.dedup
  let filtered_models :=
    all_models.filter (fun m => modelKeywords.any (fun k => pyInStr k (pyLower m)))
  if filtered_models.isEmpty then all_models else filtered_models

/-- Witness for C2 at the literal response with `score_a = score_b = 7`
and reason "close", decoded through the strict-JSON path. -/
def c2fields : List (String × JsonVal) :=
  [("score_a", .int 7), ("score_b", .int 7), ("reason", .str "close")]

/-- Content of the C2 witness response: `json.loads` succeeds on the dict. -/
def c2content : Content := ⟨some (.obj c2fields), none, none, none, none, none, "raw"⟩

/-- The verdict the parser returns on the C2 witness content with a `True`
random draw. -/
def c2verdict : Verdict := ⟨"groq/judge", 8, 7, "close"⟩

/-- Judges of the concrete 5-round fight used to analyse the decision
classification: two judges always favor red, the third judge's scores sum
equal (21-21) across the 5 rounds with no per-round tie. -/
def c5judges : List String := ["groq/j1", "mistral/j2", "groq/j3"]

/-- The recorded rounds of that concrete fight. -/
def c5rounds : List RoundRec :=
  [⟨1, "r", "b", [⟨"groq/j1", 7, 3, ""⟩, ⟨"mistral/j2", 7, 3, ""⟩, ⟨"groq/j3", 5, 4, ""⟩]⟩,
   ⟨2, "r", "b", [⟨"groq/j1", 7, 3, ""⟩, ⟨"mistral/j2", 7, 3, ""⟩, ⟨"groq/j3", 5, 4, ""⟩]⟩,
   ⟨3, "r", "b", [⟨"groq/j1", 7, 3, ""⟩, ⟨"mistral/j2", 7, 3, ""⟩, ⟨"groq/j3", 3, 5, ""⟩]⟩,
   ⟨4, "r", "b", [⟨"groq/j1", 7, 3, ""⟩, ⟨"mistral/j2", 7, 3, ""⟩, ⟨"groq/j3", 6, 3, ""⟩]⟩,
   ⟨5, "r", "b", [⟨"groq/j1", 7, 3, ""⟩, ⟨"mistral/j2", 7, 3, ""⟩, ⟨"groq/j3", 2, 5, ""⟩]⟩]

/-- The fight state after those 5 rounds (totals as accumulated). -/
def c5state : FightState :=
  { topic := "t"
    red_model := "red/m"
    blue_model := "blue/m"
    judges := c5judges
    rounds := c5rounds
    total_red := 91
    total_blue := 51
    judge_round_wins := c5judges.map (fun j => (j, 0, 0))
    aggregate_red := 0
    aggregate_blue := 0 }

/-- Helper: every verdict the strict-JSON path, the fallbacks, or the retry
loop produce carries the judge identifier it was called with. -/
theorem fallback2_judge {j : String} {c : Content} {coin : Bool} {v : Verdict}
    (h : fallback2 j c coin = .ok v) : v.judge = j := by
  simp only [fallback2] at h
  cases h
  rfl

/-- Helper: fallback 1 also stamps the calling judge. -/
theorem fallback1_judge {j : String} {c : Content} {coin : Bool} {v : Verdict}
    (h : fallback1 j c coin = .ok v) : v.judge = j := by
  unfold fallback1 at h
  split at h
  · split at h
    · cases h; rfl
    · exact fallback2_judge h
  · exact fallback2_judge h

/-- Helper: the full parse chain stamps the calling judge. -/
theorem parseVerdict_judge {j : String} {c : Content} {coin : Bool} {v : Verdict}
    (h : parseVerdict j c coin = .ok v) : v.judge = j := by
  unfold parseVerdict at h
  split at h
  · split at h
    · cases h; rfl
    · exact fallback1_judge h
  · cases h
  · exact fallback1_judge h

/-- Helper: `get_single_judge_verdict` stamps the calling judge on every
return path, including the retry-exhaustion paths. -/
theorem getSingleJudgeVerdict_judge (j : String) (attempts : List AttemptOutcome) :
    (getSingleJudgeVerdict j attempts).judge = j := by
  induction attempts with
  | nil => rfl
  | cons a rest ih =>
    cases rest with
    | nil =>
      cases a with
      | fail e => rfl
      | success c coin =>
        simp only [getSingleJudgeVerdict]
        cases hp : parseVerdict j c coin with
        | ok v => exact parseVerdict_judge hp
        | error e => rfl
    | cons b rest2 =>
      cases a with
      | fail e => simpa [getSingleJudgeVerdict] using ih
      | success c coin =>
        simp only [getSingleJudgeVerdict]
        cases hp : parseVerdict j c coin with
        | ok v => exact parseVerdict_judge hp
        | error e => simpa using ih

/-- Helper: the tie-break bump never returns equal scores. -/
theorem tieBreak_ne (coin : Bool) (sa sb : Int) :
    (tieBreak coin sa sb).1 ≠ (tieBreak coin sa sb).2 := by
  unfold tieBreak
  by_cases h : sa = sb
  · subst h
    cases coin <;> simp
  · rw [if_neg h]
    exact h

/-- Helper: on equal scores the tie-break bump increments exactly one side
by 1, which side depending on the random draw. -/
theorem tieBreak_tie (coin : Bool) (sa sb : Int) (h : sa = sb) :
    ((tieBreak coin sa sb).1 = sa + 1 ∧ (tieBreak coin sa sb).2 = sb) ∨
    ((tieBreak coin sa sb).1 = sa ∧ (tieBreak coin sa sb).2 = sb + 1) := by
  subst h
  unfold tieBreak
  cases coin <;> simp

/-- Helper: fallback 2 never returns equal scores. -/
theorem fallback2_ne {j : String} {c : Content} {coin : Bool} {v : Verdict}
    (h : fallback2 j c coin = .ok v) : v.score_a ≠ v.score_b := by
  simp only [fallback2] at h
  cases h
  exact tieBreak_ne coin _ _

/-- Helper: fallback 1 never returns equal scores. -/
theorem fallback1_ne {j : String} {c : Content} {coin : Bool} {v : Verdict}
    (h : fallback1 j c coin = .ok v) : v.score_a ≠ v.score_b := by
  unfold fallback1 at h
  split at h
  · split at h
    · cases h
      exact tieBreak_ne coin _ _
    · exact fallback2_ne h
  · exact fallback2_ne h

/-- C2: every stage of the parse chain applies the tie-break bump, so
whenever the parser fully parses a judge response in which the two scores
come out equal — through the strict-JSON path, the `ast.literal_eval`
fallback, or the regex fallback — exactly one of the two scores is
incremented by 1 (according to the random draw) before returning, and no
verdict the chain ever returns has `score_a = score_b`. -/
theorem c2_parse_tie_bump (judge_model : String) (c : Content) (coin : Bool) :
    (∀ v : Verdict, parseVerdict judge_model c coin = .ok v → v.score_a ≠ v.score_b) ∧
    (∀ (fields : List (String × JsonVal)) (sa sb : Int) (v : Verdict),
      c.json = some (.obj fields) →
      pyInt (jsonGet fields "score_a" (.int 5)) = some sa →
      pyInt (jsonGet fields "score_b" (.int 5)) = some sb →
      sa = sb → parseVerdict judge_model c coin = .ok v →
      ((v.score_a = sa + 1 ∧ v.score_b = sb) ∨ (v.score_a = sa ∧ v.score_b = sb + 1))) ∧
    (∀ (fields : List (String × JsonVal)) (sa sb : Int) (v : Verdict),
      c.astBlock = some (.obj fields) →
      pyInt (jsonGet fields "score_a" (.int 5)) = some sa →
      pyInt (jsonGet fields "score_b" (.int 5)) = some sb →
      sa = sb → fallback1 judge_model c coin = .ok v →
      ((v.score_a = sa + 1 ∧ v.score_b = sb) ∨ (v.score_a = sa ∧ v.score_b = sb + 1))) ∧
    (∀ (va vb : Int) (v : Verdict),
      va = (match c.reA with | some n => (n : Int) | none => 5) →
      vb = (match c.reB with | some n => (n : Int) | none => 5) →
      va = vb → fallback2 judge_model c coin = .ok v →
      ((v.score_a = va + 1 ∧ v.score_b = vb) ∨ (v.score_a = va ∧ v.score_b = vb + 1))) := by
  refine ⟨?_, ?_, ?_, ?_⟩
  · intro v hres
    unfold parseVerdict at hres
    split at hres
    · split at hres
      · cases hres
        exact tieBreak_ne coin _ _
      · exact fallback1_ne hres
    · cases hres
    · exact fallback1_ne hres
  · intro fields sa sb v hjson ha hb heq hres
    subst heq
    simp only [parseVerdict, hjson, ha, hb] at hres
    cases hres
    cases coin with
    | true => simp [tieBreak]
    | false => simp [tieBreak]
  · intro fields sa sb v hast ha hb heq hres
    subst heq
    simp only [fallback1, hast, ha, hb] at hres
    cases hres
    cases coin with
    | true => simp [tieBreak]
    | false => simp [tieBreak]
  · intro va vb v hva hvb heq hres
    subst hva
    subst hvb
    simp only [fallback2] at hres
    cases hres
    cases coin with
    | true => simp [heq, tieBreak]
    | false => simp [heq, tieBreak]

/-- C2 witness: the concrete 7-7 response exits the strict path with
unequal scores, one of them bumped by exactly 1. -/
theorem c2_parse_tie_bump_witness :
    (c2content.json = some (.obj c2fields) ∧
      pyInt (jsonGet c2fields "score_a" (.int 5)) = some 7 ∧
      pyInt (jsonGet c2fields "score_b" (.int 5)) = some 7 ∧
      parseVerdict "groq/judge" c2content true = .ok c2verdict) ∧
    c2verdict.score_a ≠ c2verdict.score_b ∧
    ((c2verdict.score_a = 7 + 1 ∧ c2verdict.score_b = 7) ∨
      (c2verdict.score_a = 7 ∧ c2verdict.score_b = 7 + 1)) :=
  ⟨⟨rfl, rfl, rfl, by decide⟩,
    (c2_parse_tie_bump "groq/judge" c2content true).1 c2verdict (by decide),
    (c2_parse_tie_bump "groq/judge" c2content true).2.1 c2fields 7 7 c2verdict rfl rfl rfl
      rfl (by decide)⟩

/-- C3: when every attempt of a judge call raises, `get_single_judge_verdict`
returns the neutral draw verdict `score_a = score_b = 5` whose reason
records the final error; it is a total function of the attempt outcomes,
so no failure propagates to the caller. -/
theorem c3_all_attempts_fail (judge_model : String) (attempts : List AttemptOutcome)
    (e : String)
    (hfail : ∀ a ∈ attempts, ∃ err, a = .fail err)
    (hlast : attempts.getLast? = some (.fail e)) :
    getSingleJudgeVerdict judge_model attempts = ⟨judge_model, 5, 5, "Error: " ++ e.take 50⟩ := by
  induction attempts with
  | nil => simp at hlast
  | cons a rest ih =>
    cases rest with
    | nil =>
      obtain ⟨err, rfl⟩ := hfail a (by simp)
      simp only [List.getLast?_singleton, Option.some.injEq] at hlast
      cases hlast
      rfl
    | cons b rest2 =>
      obtain ⟨err, rfl⟩ := hfail a (by simp)
      rw [List.getLast?_cons_cons] at hlast
      simpa [getSingleJudgeVerdict] using
        ih (fun x hx => hfail x (by simp [hx])) hlast

/-- C3 witness: three raised attempts (the default `retries = 2`) produce
the neutral 5-5 verdict with the error recorded in the reason. -/
theorem c3_all_attempts_fail_witness :
    (∀ a ∈ ([.fail "timed out", .fail "timed out", .fail "HTTP 500"] : List AttemptOutcome),
      ∃ err, a = .fail err) ∧
    getSingleJudgeVerdict "groq/j"
        [.fail "timed out", .fail "timed out", .fail "HTTP 500"] =
      ⟨"groq/j", 5, 5, "Error: " ++ "HTTP 500".take 50⟩ :=
  ⟨by intro a ha; simp at ha; rcases ha with rfl | rfl | rfl <;> exact ⟨_, rfl⟩,
    c3_all_attempts_fail "groq/j" _ "HTTP 500"
      (by intro a ha; simp at ha; rcases ha with rfl | rfl | rfl <;> exact ⟨_, rfl⟩)
      rfl⟩

/-- C6: in the sudden-death tally, a verdict with equal scores is adjusted
so that `score_a` exceeds `score_b` by exactly 1 and the vote counts for
red; there is no random choice on this path. -/
theorem c6_sudden_death_tie_red (v : Verdict) (h : v.score_a = v.score_b) :
    (sdStep v).1.score_a = v.score_b + 1 ∧ (sdStep v).1.score_b = v.score_b ∧
      (sdStep v).2 = true := by
  simp [sdStep, h]

/-- C6 witness at a concrete tied sudden-death verdict. -/
theorem c6_sudden_death_tie_red_witness :
    (Verdict.score_a ⟨"mistral/j", 5, 5, "even"⟩ = Verdict.score_b ⟨"mistral/j", 5, 5, "even"⟩) ∧
    ((sdStep ⟨"mistral/j", 5, 5, "even"⟩).1.score_a = 5 + 1 ∧
      (sdStep ⟨"mistral/j", 5, 5, "even"⟩).1.score_b = 5 ∧
      (sdStep ⟨"mistral/j", 5, 5, "even"⟩).2 = true) :=
  ⟨rfl, c6_sudden_death_tie_red ⟨"mistral/j", 5, 5, "even"⟩ rfl⟩

/-- Helper: the gathered verdict list has one verdict per judge. -/
theorem gatherVerdicts_length (judges : List String) (oracle : Nat → List AttemptOutcome) :
    (gatherVerdicts judges oracle).length = judges.length := by
  induction judges generalizing oracle with
  | nil => rfl
  | cons j js ih => simp [gatherVerdicts, ih]

/-- Helper: a boolean-tagged list splits into its true and false counts. -/
theorem countP_snd_add (l : List (Verdict × Bool)) :
    l.countP (fun t => t.2) + l.countP (fun t => !t.2) = l.length := by
  induction l with
  | nil => rfl
  | cons t ts ih => by_cases h : t.2 <;> simp [List.countP_cons, h] <;> omega

/-- Helper: the two sudden-death tallies always partition the verdicts. -/
theorem sdVotes_add (judges : List String) (oracle : Nat → List AttemptOutcome) :
    (sdVotes judges oracle).1 + (sdVotes judges oracle).2 = judges.length := by
  unfold sdVotes
  rw [countP_snd_add]
  simp [gatherVerdicts_length]

/-- C7: sudden death always declares a winner: with the 3-judge panel it
returns "red" or "blue" (never a draw), and the returned side holds
strictly more of the 3 judge votes. -/
theorem c7_sudden_death_declares_winner (judges : List String)
    (oracle : Nat → List AttemptOutcome) (h3 : judges.length = 3) :
    (runSuddenDeath judges oracle = "red" ∨ runSuddenDeath judges oracle = "blue") ∧
    (runSuddenDeath judges oracle = "red" →
      (sdVotes judges oracle).1 > (sdVotes judges oracle).2) ∧
    (runSuddenDeath judges oracle = "blue" →
      (sdVotes judges oracle).2 > (sdVotes judges oracle).1) := by
  have hsum := sdVotes_add judges oracle
  rw [h3] at hsum
  unfold runSuddenDeath
  by_cases hgt : (sdVotes judges oracle).1 > (sdVotes judges oracle).2
  · simp [hgt]
  · have hlt : (sdVotes judges oracle).2 > (sdVotes judges oracle).1 := by omega
    simp [hgt, hlt]

/-- C7 witness: a concrete 3-judge sudden death (all calls failing, so all
verdicts tie 5-5 and bump red) declares a winner. -/
theorem c7_sudden_death_declares_winner_witness :
    (["groq/a", "mistral/b", "groq/c"] : List String).length = 3 ∧
    (runSuddenDeath ["groq/a", "mistral/b", "groq/c"] (fun _ => [.fail "x"]) = "red" ∨
      runSuddenDeath ["groq/a", "mistral/b", "groq/c"] (fun _ => [.fail "x"]) = "blue") :=
  ⟨rfl, (c7_sudden_death_declares_winner ["groq/a", "mistral/b", "groq/c"]
    (fun _ => [.fail "x"]) rfl).1⟩

/-- C8 counterexample: a persisted pool that does contain a model, but none
under the two trusted providers, makes `load_models` return the empty
sequence — the claim "never returns an empty sequence if any model existed
in the persisted pool" fails on the code. -/
theorem c8_counterexample :
    load_models [("openai", ["openai/gpt-4"])] = [] ∧
    ([("openai", ["openai/gpt-4"])] : List (String × List String)).flatMap
      (fun e => e.2) ≠ [] :=
  ⟨by decide, by decide⟩

/-- C8 amended: `load_models` never returns an empty sequence if any model
existed under the two trusted providers; when the keyword filter comes up
empty, the provider-filtered (unfiltered-by-keyword) set is returned. -/
theorem c8_trusted_fallback (pool : List (String × List String))
    (h : ∃ e ∈ pool, (e.1 = "groq" ∨ e.1 = "mistral") ∧ e.2 ≠ []) :
    load_models pool ≠ [] ∧
    ((((pool.filter (fun e => e.1 = "groq" || e.1 = "mistral")).flatMap
          (fun e => e.2)).dedup.filter
        (fun m => modelKeywords.any (fun k => pyInStr k (pyLower m)))).isEmpty = true →
      load_models pool =
        ((pool.filter (fun e => e.1 = "groq" || e.1 = "mistral")).flatMap
          (fun e => e.2)).dedup) := by
  obtain ⟨e, he, hp, hne⟩ := h
  have hmem : e ∈ pool.filter (fun e => e.1 = "groq" || e.1 = "mistral") := by
    rw [List.mem_filter]
    exact ⟨he, by rcases hp with h1 | h1 <;> simp [h1]⟩
  obtain ⟨x, hx⟩ := List.exists_mem_of_ne_nil e.2 hne
  have hx2 : x ∈ (pool.filter (fun e => e.1 = "groq" || e.1 = "mistral")).flatMap
      (fun e => e.2) := List.mem_flatMap.mpr ⟨e, hmem, hx⟩
  have hall : ((pool.filter (fun e => e.1 = "groq" || e.1 = "mistral")).flatMap
      (fun e => e.2)).dedup ≠ [] := by
    intro hnil
    rw [List.dedup_eq_nil] at hnil
    exact List.ne_nil_of_mem hx2 hnil
  constructor
  · unfold load_models
    dsimp only
    split
    · exact hall
    · rename_i hcase
      intro hnil
      rw [hnil] at hcase
      simp at hcase
  · intro hempty
    unfold load_models
    dsimp only
    rw [if_pos hempty]

/-- C8 amended witness: one trusted-provider model makes the result
nonempty. -/
theorem c8_trusted_fallback_witness :
    (∃ e ∈ ([("groq", ["groq/llama-3.1"])] : List (String × List String)),
      (e.1 = "groq" ∨ e.1 = "mistral") ∧ e.2 ≠ []) ∧
    load_models [("groq", ["groq/llama-3.1"])] ≠ [] :=
  ⟨⟨("groq", ["groq/llama-3.1"]), by simp, by simp⟩,
    (c8_trusted_fallback [("groq", ["groq/llama-3.1"])]
      ⟨("groq", ["groq/llama-3.1"]), by simp, by simp⟩).1⟩

/-- C9: `resolve_winner` is idempotent: a second call on the resulting
state returns the identical state and pick counts, and the recorded rounds
are untouched. -/
theorem c9_resolve_idempotent (st : FightState) :
    resolveWinner ((resolveWinner st).1) = resolveWinner st ∧
    ((resolveWinner st).1).rounds = st.rounds :=
  ⟨rfl, rfl⟩

/-- Helper: the tally loop adds exactly the verdict scores to the running
totals and leaves the round log and judge list untouched. -/
theorem scoreLoop_spec (vs : List Verdict) (js : List String) (st : FightState) :
    (scoreLoop js vs st).total_red = st.total_red + (vs.map (fun v => v.score_a)).sum ∧
    (scoreLoop js vs st).total_blue = st.total_blue + (vs.map (fun v => v.score_b)).sum ∧
    (scoreLoop js vs st).rounds = st.rounds ∧
    (scoreLoop js vs st).judges = st.judges := by
  induction vs generalizing js st with
  | nil => simp [scoreLoop]
  | cons v vs ih =>
    simp only [scoreLoop]
    refine ⟨?_, ?_, ?_, ?_⟩
    · rw [(ih _ _).1]; simp; ring
    · rw [(ih _ _).2.1]; simp; ring
    · rw [(ih _ _).2.2.1]
    · rw [(ih _ _).2.2.2]

/-- Helper: `score_round` appends exactly one aligned round record and adds
its verdict scores to the totals. -/
theorem scoreRound_spec (st : FightState) (rn : Nat) (ta tb : String)
    (o : Nat → List AttemptOutcome) :
    (scoreRound st rn ta tb o).rounds =
      st.rounds ++ [⟨rn, ta, tb, gatherVerdicts st.judges o⟩] ∧
    (scoreRound st rn ta tb o).judges = st.judges ∧
    (scoreRound st rn ta tb o).total_red =
      st.total_red + ((gatherVerdicts st.judges o).map (fun v => v.score_a)).sum ∧
    (scoreRound st rn ta tb o).total_blue =
      st.total_blue + ((gatherVerdicts st.judges o).map (fun v => v.score_b)).sum := by
  unfold scoreRound
  dsimp only
  have h := scoreLoop_spec (gatherVerdicts st.judges o) st.judges st
  exact ⟨by simp [h.2.2.1], by simp [h.2.2.2], by simp [h.1], by simp [h.2.1]⟩

/-- Helper: the running totals track the recorded verdicts through any
sequence of `score_round` calls. -/
theorem applyRounds_totals (inputs : List RoundInput) (st : FightState)
    (ha : st.total_red =
      (st.rounds.map (fun r => (r.verdicts.map (fun v => v.score_a)).sum)).sum)
    (hb : st.total_blue =
      (st.rounds.map (fun r => (r.verdicts.map (fun v => v.score_b)).sum)).sum) :
    (applyRounds st inputs).total_red =
      ((applyRounds st inputs).rounds.map
        (fun r => (r.verdicts.map (fun v => v.score_a)).sum)).sum ∧
    (applyRounds st inputs).total_blue =
      ((applyRounds st inputs).rounds.map
        (fun r => (r.verdicts.map (fun v => v.score_b)).sum)).sum := by
  induction inputs generalizing st with
  | nil => exact ⟨ha, hb⟩
  | cons ri rest ih =>
    simp only [applyRounds]
    apply ih
    · rw [(scoreRound_spec st ri.num ri.t_a ri.t_b ri.oracle).2.2.1,
        (scoreRound_spec st ri.num ri.t_a ri.t_b ri.oracle).1]
      simp [ha]
    · rw [(scoreRound_spec st ri.num ri.t_a ri.t_b ri.oracle).2.2.2,
        (scoreRound_spec st ri.num ri.t_a ri.t_b ri.oracle).1]
      simp [hb]

/-- C10: after any sequence of `score_round` calls followed by
`resolve_winner`, the recorded `aggregate_scores` equal the sums of
`score_a` (red) and `score_b` (blue) over every verdict of every recorded
round — the running totals never drift from the recorded verdicts. -/
theorem c10_aggregate_scores_match_verdicts (fa fb topic : String) (judges : List String)
    (inputs : List RoundInput) :
    ((resolveWinner (applyRounds (initState fa fb judges topic) inputs)).1).aggregate_red =
      (((resolveWinner (applyRounds (initState fa fb judges topic) inputs)).1).rounds.map
        (fun r => (r.verdicts.map (fun v => v.score_a)).sum)).sum ∧
    ((resolveWinner (applyRounds (initState fa fb judges topic) inputs)).1).aggregate_blue =
      (((resolveWinner (applyRounds (initState fa fb judges topic) inputs)).1).rounds.map
        (fun r => (r.verdicts.map (fun v => v.score_b)).sum)).sum := by
  have h := applyRounds_totals inputs (initState fa fb judges topic)
    (by simp [initState]) (by simp [initState])
  exact ⟨by simpa [resolveWinner] using h.1, by simpa [resolveWinner] using h.2⟩

/-- Helper: the gathered verdict list maps back onto the judge list —
verdict `i` was produced by the call issued for judge `i`. -/
theorem gatherVerdicts_map_judge (judges : List String)
    (oracle : Nat → List AttemptOutcome) :
    (gatherVerdicts judges oracle).map (fun v => v.judge) = judges := by
  induction judges generalizing oracle with
  | nil => rfl
  | cons j js ih => simp [gatherVerdicts, getSingleJudgeVerdict_judge, ih]

/-- Helper: every round ever recorded by `score_round` keeps its verdicts
positionally aligned with the fixed judge list. -/
theorem applyRounds_aligned (J : List String) (inputs : List RoundInput) (st : FightState)
    (hj : st.judges = J)
    (hrounds : ∀ r ∈ st.rounds, r.verdicts.map (fun v => v.judge) = J) :
    (applyRounds st inputs).judges = J ∧
    ∀ r ∈ (applyRounds st inputs).rounds, r.verdicts.map (fun v => v.judge) = J := by
  induction inputs generalizing st with
  | nil => exact ⟨hj, hrounds⟩
  | cons ri rest ih =>
    simp only [applyRounds]
    apply ih
    · rw [(scoreRound_spec st ri.num ri.t_a ri.t_b ri.oracle).2.1, hj]
    · intro r hr
      rw [(scoreRound_spec st ri.num ri.t_a ri.t_b ri.oracle).1] at hr
      rcases List.mem_append.mp hr with h | h
      · exact hrounds r h
      · simp only [List.mem_singleton] at h
        subst h
        simp [gatherVerdicts_map_judge, hj]

/-- C1: every completed round of a fight has exactly one verdict per judge,
and the verdict at position `i` carries the judge identifier at position
`i` of the judge list — verdicts are never filtered or reordered relative
to the judges. -/
theorem c1_verdicts_aligned_with_judges (fa fb topic : String) (judges : List String)
    (inputs : List RoundInput) (r : RoundRec)
    (hr : r ∈ (applyRounds (initState fa fb judges topic) inputs).rounds) :
    r.verdicts.length = judges.length ∧
    r.verdicts.map (fun v => v.judge) = judges ∧
    ∀ (i : Nat) (h1 : i < r.verdicts.length) (h2 : i < judges.length),
      (r.verdicts.get ⟨i, h1⟩).judge = judges.get ⟨i, h2⟩ := by
  have h := (applyRounds_aligned judges inputs (initState fa fb judges topic) rfl
    (by simp [initState])).2 r hr
  refine ⟨by rw [← h, List.length_map], h, ?_⟩
  intro i h1 h2
  have h3 : i < (r.verdicts.map (fun v => v.judge)).length := by simpa using h1
  have e1 : (r.verdicts.map (fun v => v.judge)).get ⟨i, h3⟩ =
      (r.verdicts.get ⟨i, h1⟩).judge := by simp
  have e2 : (r.verdicts.map (fun v => v.judge)).get ⟨i, h3⟩ = judges.get ⟨i, h2⟩ := by
    simp only [List.get_eq_getElem]
    rw [List.getElem_of_eq h h3]
  rw [← e1, e2]

/-- C1 witness: a concrete one-round fight with two judges whose calls all
fail still records one aligned verdict per judge. -/
theorem c1_verdicts_aligned_with_judges_witness :
    (⟨1, "ta", "tb", [⟨"groq/j1", 5, 5, "Error: x"⟩, ⟨"mistral/j2", 5, 5, "Error: x"⟩]⟩ :
        RoundRec) ∈
      (applyRounds (initState "f/a" "f/b" ["groq/j1", "mistral/j2"] "topic")
        [⟨1, "ta", "tb", fun _ => [.fail "x"]⟩]).rounds ∧
    ((⟨1, "ta", "tb", [⟨"groq/j1", 5, 5, "Error: x"⟩, ⟨"mistral/j2", 5, 5, "Error: x"⟩]⟩ :
        RoundRec).verdicts.length = (["groq/j1", "mistral/j2"] : List String).length ∧
      (⟨1, "ta", "tb", [⟨"groq/j1", 5, 5, "Error: x"⟩, ⟨"mistral/j2", 5, 5, "Error: x"⟩]⟩ :
        RoundRec).verdicts.map (fun v => v.judge) = ["groq/j1", "mistral/j2"]) :=
  ⟨by decide,
    (c1_verdicts_aligned_with_judges "f/a" "f/b" "topic" ["groq/j1", "mistral/j2"]
      [⟨1, "ta", "tb", fun _ => [.fail "x"]⟩]
      ⟨1, "ta", "tb", [⟨"groq/j1", 5, 5, "Error: x"⟩, ⟨"mistral/j2", 5, 5, "Error: x"⟩]⟩
      (by decide)).1,
    (c1_verdicts_aligned_with_judges "f/a" "f/b" "topic" ["groq/j1", "mistral/j2"]
      [⟨1, "ta", "tb", fun _ => [.fail "x"]⟩]
      ⟨1, "ta", "tb", [⟨"groq/j1", 5, 5, "Error: x"⟩, ⟨"mistral/j2", 5, 5, "Error: x"⟩]⟩
      (by decide)).2.1⟩

/-- C5 counterexample: in the concrete fight `c5state` the judge picks are
red, red, draw, so `resolve_winner` returns the pick count (2, 0); the
endpoint classifies this as a "Split" decision even though the pick count
is not 2-1 — refuting "Split exactly when the pick count is 2-1". -/
theorem c5_counterexample :
    (resolveWinner c5state).2 = (2, 0) ∧
    decisionType (resolveWinner c5state).2.1 (resolveWinner c5state).2.2 = "Split" ∧
    ¬((resolveWinner c5state).2.1 = 2 ∧ (resolveWinner c5state).2.2 = 1) :=
  ⟨by decide, by decide, by decide⟩

/-- C5 amended: each judge's overall pick is decided by comparing that
judge's own `score_a` sum against their `score_b` sum across the recorded
rounds (at the judge's position); a side with strictly more judge picks is
declared winner; the decision type is Unanimous exactly when the pick
count is 3-0, Split exactly when one side has strictly more picks but not
all 3 (2-1, 2-0 or 1-0), and sudden death is invoked exactly when the red
and blue pick counts are equal. -/
theorem c5_decision_classification (judges : List String) (rounds : List RoundRec)
    (i : Nat) (hi : i < judges.length) (hnd : judges.Nodup) (r b : Nat)
    (hrb : r + b ≤ 3) :
    (judgePick judges rounds (judges.get ⟨i, hi⟩) =
      (if ((rounds.map (fun rd => (rd.verdicts.getD i noVerdict).score_a)).sum : Int) >
          (rounds.map (fun rd => (rd.verdicts.getD i noVerdict).score_b)).sum then "red"
        else if ((rounds.map (fun rd => (rd.verdicts.getD i noVerdict).score_b)).sum : Int) >
            (rounds.map (fun rd => (rd.verdicts.getD i noVerdict).score_a)).sum then "blue"
          else "draw")) ∧
    (r > b → winnerKey r b = "red") ∧
    (b > r → winnerKey r b = "blue") ∧
    (decisionType r b = "Sudden Death" ↔ r = b) ∧
    (decisionType r b = "Unanimous" ↔ ((r = 3 ∧ b = 0) ∨ (r = 0 ∧ b = 3))) ∧
    (decisionType r b = "Split" ↔ (r ≠ b ∧ r ≠ 3 ∧ b ≠ 3)) := by
  refine ⟨?_, ?_, ?_, ?_, ?_, ?_⟩
  · have hidx : List.indexOf (judges.get ⟨i, hi⟩) judges = i := by
      simpa using List.indexOf_getElem hnd i hi
    unfold judgePick
    dsimp only
    rw [hidx]
  · intro h
    simp [winnerKey, h]
  · intro h
    simp [winnerKey, show ¬r > b from by omega]
  · unfold decisionType
    by_cases h1 : r = b
    · simp [h1]
    · rw [if_neg h1]
      by_cases h2 : r = 3 ∨ b = 3
      · rw [if_pos h2]
        exact iff_of_false (by decide) h1
      · rw [if_neg h2]
        exact iff_of_false (by decide) h1
  · unfold decisionType
    by_cases h1 : r = b
    · rw [if_pos h1]
      exact iff_of_false (by decide) (by omega)
    · by_cases h2 : r = 3 ∨ b = 3
      · rw [if_neg h1, if_pos h2]
        constructor
        · intro _
          rcases h2 with h3 | h3
          · exact Or.inl ⟨h3, by omega⟩
          · exact Or.inr ⟨by omega, h3⟩
        · intro _
          rfl
      · rw [if_neg h1, if_neg h2]
        exact iff_of_false (by decide) (by omega)
  · unfold decisionType
    by_cases h1 : r = b
    · rw [if_pos h1]
      exact iff_of_false (by decide) (fun hh => hh.1 h1)
    · by_cases h2 : r = 3 ∨ b = 3
      · rw [if_neg h1, if_pos h2]
        exact iff_of_false (by decide) (fun hh => by rcases h2 with h3 | h3 <;> omega)
      · rw [if_neg h1, if_neg h2]
        push_neg at h2
        exact iff_of_true rfl ⟨h1, h2.1, h2.2⟩

/-- C5 amended witness: instantiated at the concrete fight `c5state`
(first judge) and at the pick count 2-1. -/
theorem c5_decision_classification_witness :
    c5judges.Nodup ∧ 2 + 1 ≤ 3 ∧
    judgePick c5judges c5rounds (c5judges.get ⟨0, by decide⟩) = "red" ∧
    winnerKey 2 1 = "red" ∧ decisionType 2 1 = "Split" := by
  have h := c5_decision_classification c5judges c5rounds 0 (by decide) (by decide) 2 1
    (by decide)
  refine ⟨by decide, by decide, ?_, h.2.1 (by decide), ?_⟩
  · rw [h.1]
    decide
  · exact h.2.2.2.2.2.mpr ⟨by decide, by decide, by decide⟩

/-- Helper: an element picked by `random.choice` out of a nonempty
candidate list is one of the candidates. -/
theorem getD_mod_mem (l : List String) (h : ¬l.isEmpty = true) (k : Nat) :
    l.getD (k % l.length) "" ∈ l := by
  have hne : l ≠ [] := by simpa using h
  have hl : 0 < l.length := List.length_pos.mpr hne
  have hk : k % l.length < l.length := Nat.mod_lt _ hl
  rw [List.getD_eq_getElem l "" hk]
  exact List.getElem_mem hk

/-- Helper: a nodup list included in another list is no longer than it. -/
theorem nodup_subset_length {l1 l2 : List String} (h1 : l1.Nodup)
    (hsub : ∀ x ∈ l1, x ∈ l2) : l1.length ≤ l2.length := by
  calc l1.length = l1.toFinset.card := (List.toFinset_card_of_nodup h1).symm
    _ ≤ l2.toFinset.card := Finset.card_le_card (fun x hx =>
        List.mem_toFinset.mpr (hsub x (List.mem_toFinset.mp hx)))
    _ ≤ l2.length := l2.toFinset_card_le

/-- Helper: filtering a list by a predicate and its negation partitions its
length. -/
theorem filter_partition_length (pool : List String) (p : String → Bool) :
    (pool.filter (fun m => !(p m))).length + (pool.filter (fun m => p m)).length =
      pool.length := by
  induction pool with
  | nil => rfl
  | cons x xs ih => by_cases h : p x <;> simp [List.filter_cons, h] <;> omega

/-- Helper: a passed negated-containment test means non-membership. -/
theorem bnot_contains_true {l : List String} {x : String}
    (h : (!(l.contains x)) = true) : x ∉ l := by simpa using h

/-- Helper: a false containment test means non-membership. -/
theorem contains_false_not_mem {l : List String} {x : String}
    (h : l.contains x = false) : x ∉ l := by simpa using h

/-- Helper: a failed negated-containment test means membership. -/
theorem not_bnot_contains {l : List String} {x : String}
    (h : ¬(!(l.contains x)) = true) : x ∈ l := by simpa using h

/-- Helper: the diversity pass preserves distinctness, disjointness from
the fighters, and the 3-judge cap. -/
theorem diversityPass_inv (pool fighters : List String) (provOrder : List String)
    (picks : List Nat) (judges : List String)
    (h1 : judges.Nodup) (h2 : ∀ x ∈ judges, x ∉ fighters) (h3 : judges.length ≤ 3) :
    (diversityPass pool fighters provOrder picks judges).Nodup ∧
    (∀ x ∈ diversityPass pool fighters provOrder picks judges, x ∉ fighters) ∧
    (diversityPass pool fighters provOrder picks judges).length ≤ 3 := by
  induction provOrder generalizing picks judges with
  | nil => exact ⟨h1, h2, h3⟩
  | cons p ps ih =>
    simp only [diversityPass]
    by_cases hlen : judges.length ≥ 3
    · rw [if_pos hlen]
      exact ⟨h1, h2, h3⟩
    · rw [if_neg hlen]
      by_cases hc : ((pool.filter (fun m => providerOf m = p)).filter
          (fun m => !(fighters.contains m) && !(judges.contains m))).isEmpty = true
      · rw [if_pos hc]
        exact ih picks.tail judges h1 h2 h3
      · rw [if_neg hc]
        obtain ⟨hcp, hcb⟩ := List.mem_filter.mp (getD_mod_mem _ hc (picks.headD 0))
        rw [Bool.and_eq_true] at hcb
        have hcf := bnot_contains_true hcb.1
        have hcj := bnot_contains_true hcb.2
        apply ih
        · rw [List.nodup_append]
          exact ⟨h1, List.nodup_singleton _, by simpa using hcj⟩
        · intro x hx
          rcases List.mem_append.mp hx with hx1 | hx1
          · exact h2 x hx1
          · rw [List.mem_singleton] at hx1
            subst hx1
            exact hcf
        · simp
          omega

/-- Helper: the rotation fill pass preserves distinctness, disjointness
from the fighters, and the 3-judge cap. -/
theorem fillPass_inv (pool fighters : List String) (fuel : Nat) :
    ∀ (judges : List String) (rotIdx : Nat),
      judges.Nodup → (∀ x ∈ judges, x ∉ fighters) → judges.length ≤ 3 →
      ((fillPass pool fighters judges rotIdx fuel).1.Nodup ∧
        (∀ x ∈ (fillPass pool fighters judges rotIdx fuel).1, x ∉ fighters) ∧
        (fillPass pool fighters judges rotIdx fuel).1.length ≤ 3) := by
  induction fuel with
  | zero => intro judges rotIdx h1 h2 h3; exact ⟨h1, h2, h3⟩
  | succ n ih =>
    intro judges rotIdx h1 h2 h3
    simp only [fillPass]
    by_cases hlt : judges.length < 3
    · rw [if_pos hlt]
      by_cases hc : (!(fighters.contains (pool.getD (rotIdx % pool.length) "")) &&
          !(judges.contains (pool.getD (rotIdx % pool.length) ""))) = true
      · rw [if_pos hc]
        rw [Bool.and_eq_true] at hc
        have hcf := bnot_contains_true hc.1
        have hcj := bnot_contains_true hc.2
        apply ih
        · rw [List.nodup_append]
          exact ⟨h1, List.nodup_singleton _, by simpa using hcj⟩
        · intro x hx
          rcases List.mem_append.mp hx with hx1 | hx1
          · exact h2 x hx1
          · rw [List.mem_singleton] at hx1
            subst hx1
            exact hcf
        · simp
          omega
      · rw [if_neg hc]
        exact ih judges (rotIdx + 1) h1 h2 h3
    · rw [if_neg hlt]
      exact ⟨h1, h2, h3⟩

/-- Helper: the fill pass never removes a judge already chosen. -/
theorem fillPass_mono (pool fighters : List String) (fuel : Nat) :
    ∀ (judges : List String) (rotIdx : Nat) (x : String), x ∈ judges →
      x ∈ (fillPass pool fighters judges rotIdx fuel).1 := by
  induction fuel with
  | zero => intro judges rotIdx x hx; exact hx
  | succ n ih =>
    intro judges rotIdx x hx
    simp only [fillPass]
    by_cases hlt : judges.length < 3
    · rw [if_pos hlt]
      by_cases hc : (!(fighters.contains (pool.getD (rotIdx % pool.length) "")) &&
          !(judges.contains (pool.getD (rotIdx % pool.length) ""))) = true
      · rw [if_pos hc]
        exact ih _ _ x (by simp [hx])
      · rw [if_neg hc]
        exact ih _ _ x hx
    · rw [if_neg hlt]
      exact hx

/-- Helper: within its attempt budget the fill pass visits the pool slot
`(rotIdx + i) % pool.length` for every `i < fuel`; an eligible candidate
sitting there ends up chosen unless the panel is already full. -/
theorem fillPass_visit (pool fighters : List String) (fuel : Nat) :
    ∀ (judges : List String) (rotIdx i : Nat), i < fuel →
      judges.length ≤ 3 →
      fighters.contains (pool.getD ((rotIdx + i) % pool.length) "") = false →
      ((fillPass pool fighters judges rotIdx fuel).1.length = 3 ∨
        pool.getD ((rotIdx + i) % pool.length) "" ∈
          (fillPass pool fighters judges rotIdx fuel).1) := by
  induction fuel with
  | zero => intro judges rotIdx i hi; omega
  | succ n ih =>
    intro judges rotIdx i hi h3 hx
    simp only [fillPass]
    by_cases hlt : judges.length < 3
    · rw [if_pos hlt]
      cases i with
      | zero =>
        rw [Nat.add_zero] at hx
        right
        apply fillPass_mono
        by_cases hc : (!(fighters.contains (pool.getD (rotIdx % pool.length) "")) &&
            !(judges.contains (pool.getD (rotIdx % pool.length) ""))) = true
        · rw [if_pos hc]
          rw [Nat.add_zero]
          simp
        · rw [if_neg hc]
          rw [Bool.and_eq_true] at hc
          rw [Nat.add_zero]
          rcases Decidable.not_and_iff_or_not.mp hc with hc1 | hc1
          · exact absurd (not_bnot_contains hc1) (contains_false_not_mem hx)
          · exact not_bnot_contains hc1
      | succ i0 =>
        have hshift : rotIdx + (i0 + 1) = (rotIdx + 1) + i0 := by omega
        rw [hshift] at hx ⊢
        have h3n : (if (!(fighters.contains (pool.getD (rotIdx % pool.length) "")) &&
            !(judges.contains (pool.getD (rotIdx % pool.length) ""))) = true
          then judges ++ [pool.getD (rotIdx % pool.length) ""] else judges).length ≤ 3 := by
          split
          · simp
            omega
          · omega
        exact ih _ (rotIdx + 1) i0 (by omega) h3n hx
    · rw [if_neg hlt]
      left
      show judges.length = 3
      omega

/-- Helper: every pool slot is reachable from any rotation index within
`2 * pool.length` steps. -/
theorem exists_visit_index (n rotIdx j : Nat) (hj : j < n) :
    ∃ i, i < 2 * n ∧ (rotIdx + i) % n = j := by
  have hn : 0 < n := by omega
  have hr : rotIdx % n < n := Nat.mod_lt _ hn
  have hdm : n * (rotIdx / n) + rotIdx % n = rotIdx := Nat.div_add_mod rotIdx n
  refine ⟨j + n - rotIdx % n, by omega, ?_⟩
  have hd : n * (rotIdx / n + 1) = n * (rotIdx / n) + n := by ring
  have heq : rotIdx + (j + n - rotIdx % n) = n * (rotIdx / n + 1) + j := by omega
  rw [heq, Nat.mul_add_mod, Nat.mod_eq_of_lt hj]

/-- Helper: whenever the pool (deduplicated) still holds at least 3
non-fighter candidates, `get_judges` fills the panel to exactly 3. -/
theorem getJudges_complete (pool fighters provOrder : List String) (picks : List Nat)
    (rotIdx : Nat) (hnd : pool.Nodup)
    (helig : 3 ≤ (pool.filter (fun m => !(fighters.contains m))).length) :
    ((getJudges pool fighters provOrder picks rotIdx).1).length = 3 := by
  unfold getJudges
  dsimp only
  have hInv0 := diversityPass_inv pool fighters provOrder picks []
    List.nodup_nil (by simp) (by simp)
  have hpool_pos : 0 < pool.length := by
    have := List.length_filter_le (fun m => !(fighters.contains m)) pool
    omega
  have hres3 := (fillPass_inv pool fighters (2 * pool.length)
    (diversityPass pool fighters provOrder picks []) rotIdx
    hInv0.1 hInv0.2.1 hInv0.2.2).2.2
  by_contra hne
  have hlt : ((fillPass pool fighters (diversityPass pool fighters provOrder picks [])
      rotIdx (2 * pool.length)).1).length < 3 := by omega
  have hsub : ∀ x ∈ pool.filter (fun m => !(fighters.contains m)),
      x ∈ (fillPass pool fighters (diversityPass pool fighters provOrder picks [])
        rotIdx (2 * pool.length)).1 := by
    intro x hx
    obtain ⟨hxp, hxf⟩ := List.mem_filter.mp hx
    obtain ⟨j, hj, hxj⟩ := List.getElem_of_mem hxp
    obtain ⟨i, hi2n, hmod⟩ := exists_visit_index pool.length rotIdx j hj
    have hgetD : pool.getD ((rotIdx + i) % pool.length) "" = x := by
      rw [hmod, List.getD_eq_getElem pool "" hj]
      exact hxj
    have hcf : fighters.contains (pool.getD ((rotIdx + i) % pool.length) "") = false := by
      rw [hgetD]
      simpa using hxf
    rcases fillPass_visit pool fighters (2 * pool.length)
        (diversityPass pool fighters provOrder picks []) rotIdx i hi2n hInv0.2.2 hcf with
      h3 | hmem
    · omega
    · rw [hgetD] at hmem
      exact hmem
  have hlen := nodup_subset_length (hnd.filter _) hsub
  omega

/-- C4: for any deduplicated pool, `get_judges` returns pairwise-distinct
judges disjoint from the fighters; with a pool of at least 5 unique
identifiers and 2 fighters it returns exactly 3 judges; and it returns
fewer than 3 only when the pool cannot supply 3 eligible (non-fighter,
non-duplicate) candidates. -/
theorem c4_get_judges (pool fighters provOrder : List String) (picks : List Nat)
    (rotIdx : Nat) (hnd : pool.Nodup) :
    (((getJudges pool fighters provOrder picks rotIdx).1).Nodup ∧
      ∀ j ∈ (getJudges pool fighters provOrder picks rotIdx).1, j ∉ fighters) ∧
    (fighters.length = 2 → 5 ≤ pool.length →
      ((getJudges pool fighters provOrder picks rotIdx).1).length = 3) ∧
    (((getJudges pool fighters provOrder picks rotIdx).1).length < 3 →
      (pool.filter (fun m => !(fighters.contains m))).length < 3) := by
  have hInv0 := diversityPass_inv pool fighters provOrder picks []
    List.nodup_nil (by simp) (by simp)
  have hInv := fillPass_inv pool fighters (2 * pool.length)
    (diversityPass pool fighters provOrder picks []) rotIdx
    hInv0.1 hInv0.2.1 hInv0.2.2
  refine ⟨⟨hInv.1, hInv.2.1⟩, ?_, ?_⟩
  · intro hf2 hp5
    apply getJudges_complete pool fighters provOrder picks rotIdx hnd
    have hpart := filter_partition_length pool (fun m => fighters.contains m)
    have hin : ∀ x ∈ pool.filter (fun m => fighters.contains m), x ∈ fighters := by
      intro x hx
      have := (List.mem_filter.mp hx).2
      simpa using this
    have hle := nodup_subset_length (hnd.filter _) hin
    omega
  · intro hlen
    by_contra hcon
    push_neg at hcon
    have := getJudges_complete pool fighters provOrder picks rotIdx hnd hcon
    omega

/-- C4 witness: a concrete 5-model pool with 2 fighters drawn from it
yields exactly 3 distinct non-fighter judges. -/
theorem c4_get_judges_witness :
    (["groq/a", "groq/b", "mistral/c", "mistral/d", "groq/e"] : List String).Nodup ∧
    ((getJudges ["groq/a", "groq/b", "mistral/c", "mistral/d", "groq/e"]
        ["groq/a", "mistral/c"] ["groq", "mistral"] [0, 0] 0).1.Nodup ∧
      ∀ j ∈ (getJudges ["groq/a", "groq/b", "mistral/c", "mistral/d", "groq/e"]
        ["groq/a", "mistral/c"] ["groq", "mistral"] [0, 0] 0).1,
        j ∉ (["groq/a", "mistral/c"] : List String)) ∧
    (getJudges ["groq/a", "groq/b", "mistral/c", "mistral/d", "groq/e"]
        ["groq/a", "mistral/c"] ["groq", "mistral"] [0, 0] 0).1.length = 3 :=
  ⟨by decide,
    (c4_get_judges ["groq/a", "groq/b", "mistral/c", "mistral/d", "groq/e"]
      ["groq/a", "mistral/c"] ["groq", "mistral"] [0, 0] 0 (by decide)).1,
    (c4_get_judges ["groq/a", "groq/b", "mistral/c", "mistral/d", "groq/e"]
      ["groq/a", "mistral/c"] ["groq", "mistral"] [0, 0] 0 (by decide)).2.1
      (by decide) (by decide)⟩
